import Mathlib

set_option maxHeartbeats 1000000

/-!
Verification development for the convex-firebase-auth component.

The definitions below are a shallow embedding of the repository's core:
the base64url codec, the JWT structural parser, the claims validator and
the Cache-Control parser from `src/component/jwtUtils.ts`, and the
Convex functions of `src/component/lib.ts` (`verifyToken`, `deleteUser`,
`getSession`, `_upsertUser`, `_createSession`, `_setCachedPublicKeys`,
`_getCachedPublicKeys`, `getUserByFirebaseUid`, `_getUserById`) over an
explicit document-store state.  Platform primitives (`JSON.parse`,
`TextDecoder`, `crypto.subtle`, `fetch`) are abstracted as parameters of
the verification environment; `atob` is modelled by the WHATWG
forgiving-base64 decode.  Bytes are `Nat` (< 256), timestamps are `Int`
(milliseconds resp. whole seconds), table rows carry explicit `Nat` ids
in creation order (Convex `_creationTime` ordering).
-/

namespace CFA

/-! ### Base64 alphabet and the platform `atob` (forgiving-base64) -/

def b64Alphabet : List Char :=
  ['A','B','C','D','E','F','G','H','I','J','K','L','M',
   'N','O','P','Q','R','S','T','U','V','W','X','Y','Z',
   'a','b','c','d','e','f','g','h','i','j','k','l','m',
   'n','o','p','q','r','s','t','u','v','w','x','y','z',
   '0','1','2','3','4','5','6','7','8','9','+','/']

def findIdxFrom : List Char → Char → Nat → Option Nat
  | [], _, _ => none
  | a :: rest, c, i => if a = c then some i else findIdxFrom rest c (i + 1)

/-- Index of a character in the standard base64 alphabet, `none` if absent. -/
def b64Index (c : Char) : Option Nat := findIdxFrom b64Alphabet c 0

/-- Pack bytes into 6-bit groups (the encoding direction of base64). -/
def bytesToSextets : List Nat → List Nat
  | b1 :: b2 :: b3 :: rest =>
      b1 / 4 :: (b1 % 4 * 16 + b2 / 16) :: (b2 % 16 * 4 + b3 / 64) :: b3 % 64 ::
        bytesToSextets rest
  | [b1, b2] => [b1 / 4, b1 % 4 * 16 + b2 / 16, b2 % 16 * 4]
  | [b1] => [b1 / 4, b1 % 4 * 16]
  | [] => []

/-- Unpack 6-bit groups into bytes (the decoding direction of base64);
trailing groups of fewer than 8 bits are discarded, as in
WHATWG forgiving-base64. -/
def sextetsToBytes : List Nat → List Nat
  | s1 :: s2 :: s3 :: s4 :: rest =>
      (s1 * 4 + s2 / 16) :: (s2 % 16 * 16 + s3 / 4) :: (s3 % 4 * 64 + s4) ::
        sextetsToBytes rest
  | [s1, s2, s3] => [s1 * 4 + s2 / 16, s2 % 16 * 16 + s3 / 4]
  | [s1, s2] => [s1 * 4 + s2 / 16]
  | _ => []

/-- ASCII whitespace stripped by forgiving-base64. -/
def isB64Ws (c : Char) : Bool :=
  c = ' ' || c = '\t' || c = '\n' || c = '\r' || c = '\x0c'

/-- Remove up to two trailing `=` characters. -/
def dropTrailingEq (l : List Char) : List Char :=
  if l.getLast? = some '=' then
    if l.dropLast.getLast? = some '=' then l.dropLast.dropLast else l.dropLast
  else l

/-- Map every character to its base64 sextet; `none` on the first invalid one. -/
def mapSextets : List Char → Option (List Nat)
  | [] => some []
  | c :: rest =>
    match b64Index c, mapSextets rest with
    | some s, some l => some (s :: l)
    | _, _ => none

/-- The platform `atob`: WHATWG forgiving-base64 decode.  Strips ASCII
whitespace, strips up to two trailing `=` when the length is a multiple
of four, rejects length 1 mod 4 and any character outside the alphabet. -/
def atob (s : List Char) : Except String (List Nat) :=
  let d0 := s.filter (fun c => !isB64Ws c)
  let d1 := if d0.length % 4 = 0 then dropTrailingEq d0 else d0
  if d1.length % 4 = 1 then Except.error "InvalidCharacterError"
  else
    match mapSextets d1 with
    | none => Except.error "InvalidCharacterError"
    | some sx => Except.ok (sextetsToBytes sx)

/-- `base64urlDecode` from `jwtUtils.ts`: replace `-`/`_` by `+`/`/`,
pad with `=` to a multiple of four, then `atob`. -/
def base64urlDecode (str : String) : Except String (List Nat) :=
  let b64 := str.data.map (fun c => if c = '-' then '+' else if c = '_' then '/' else c)
  let padded := b64 ++ List.replicate ((4 - b64.length % 4) % 4) '='
  atob padded

/-- Character of one sextet of the unpadded base64url encoding
(standard alphabet with `+` replaced by `-` and `/` by `_`). -/
def toUrlChar (s : Nat) : Char :=
  let c := b64Alphabet.getD s 'A'
  if c = '+' then '-' else if c = '/' then '_' else c

/-- The unpadded base64url encoding of a byte sequence, as produced by the
test-suite helper (`btoa` followed by the url-alphabet substitution and
stripping of `=` padding). -/
def base64urlEncode (bytes : List Nat) : List Char :=
  (bytesToSextets bytes).map toUrlChar

/-! ### Splitting a compact JWT on dots (JS `token.split(".")`) -/

def splitOnDot : List Char → List (List Char)
  | [] => [[]]
  | c :: rest =>
    match splitOnDot rest with
    | [] => [[]]
    | h :: t => if c = '.' then [] :: h :: t else (c :: h) :: t

/-- Inverse of `splitOnDot`: interleave the segments with dots. -/
def joinDots : List (List Char) → List Char
  | [] => []
  | [a] => a
  | a :: rest => a ++ '.' :: joinDots rest

/-! ### JWT data model (`jwtUtils.ts`) -/

/-- `JwtHeader`; fields are optional because the decoded JSON is not
schema-validated before the truthiness check on `alg` and `kid`. -/
structure JwtHeader where
  alg : Option String
  kid : Option String
deriving Repr, DecidableEq

structure FirebaseInfo where
  sign_in_provider : Option String
deriving Repr, DecidableEq

/-- `FirebaseTokenPayload`; every claim is optional since the payload is
parsed as arbitrary JSON. -/
structure FirebaseTokenPayload where
  iss : Option String
  aud : Option String
  auth_time : Option Int
  sub : Option String
  iat : Option Int
  exp : Option Int
  email : Option String
  email_verified : Option Bool
  name : Option String
  picture : Option String
  phone_number : Option String
  firebase : Option FirebaseInfo
deriving Repr, DecidableEq

structure ParsedJwt where
  header : JwtHeader
  payload : FirebaseTokenPayload
  signedContent : String
  signature : List Nat
deriving Repr, DecidableEq

/-- JS truthiness of an optional string: `undefined` and `""` are falsy. -/
def strFalsy : Option String → Bool
  | none => true
  | some s => s = ""

/-- JS truthiness of an optional number: `undefined` and `0` are falsy. -/
def numFalsy : Option Int → Bool
  | none => true
  | some x => x = 0

/-- Rendering of an optional string in a template literal. -/
def optStr : Option String → String
  | none => "undefined"
  | some s => s

/-- `parseJwt` from `jwtUtils.ts`.  `jsonHeader`/`jsonPayload` model
`JSON.parse` (plus the cast to the expected shape) and `utf8` models
`TextDecoder.decode`; they are parameters because they are platform
primitives. -/
def parseJwt (jsonHeader : String → Option JwtHeader)
    (jsonPayload : String → Option FirebaseTokenPayload)
    (utf8 : List Nat → String) (token : String) : Except String ParsedJwt :=
  match splitOnDot token.data with
  | [headerB64, payloadB64, signatureB64] =>
    match (base64urlDecode (String.mk headerB64)).toOption.bind
        (fun bs => jsonHeader (utf8 bs)) with
    | none => Except.error "Invalid JWT: failed to decode header"
    | some header =>
      match (base64urlDecode (String.mk payloadB64)).toOption.bind
          (fun bs => jsonPayload (utf8 bs)) with
      | none => Except.error "Invalid JWT: failed to decode payload"
      | some payload =>
        if strFalsy header.alg || strFalsy header.kid then
          Except.error "Invalid JWT header: missing alg or kid"
        else
          match base64urlDecode (String.mk signatureB64) with
          | Except.error e => Except.error e
          | Except.ok signature =>
            Except.ok ⟨header, payload,
              String.mk (headerB64 ++ '.' :: payloadB64), signature⟩
  | _ => Except.error "Invalid JWT: expected 3 parts"

/-! ### Claims validation (`validateClaims` from `jwtUtils.ts`) -/

/-- `o <= n` for an optional number known to be present (the JS source only
reaches this comparison after the truthiness check). -/
def optLe (o : Option Int) (n : Int) : Bool :=
  match o with
  | none => false
  | some x => x ≤ n

def optGt (o : Option Int) (n : Int) : Bool :=
  match o with
  | none => false
  | some x => n < x

/-- `validateClaims` from `jwtUtils.ts`; `now` is the caller's
`Math.floor(Date.now() / 1000)`. -/
def validateClaims (payload : FirebaseTokenPayload) (projectId : String)
    (now : Int) : Except String Unit :=
  if numFalsy payload.exp || optLe payload.exp now then
    Except.error "Token has expired"
  else if numFalsy payload.iat || optGt payload.iat now then
    Except.error "Token issued in the future"
  else if payload.aud ≠ some projectId then
    Except.error ("Invalid audience: expected " ++ projectId ++ ", got " ++
      optStr payload.aud)
  else if payload.iss ≠ some ("https://securetoken.google.com/" ++ projectId) then
    Except.error ("Invalid issuer: expected https://securetoken.google.com/" ++
      projectId ++ ", got " ++ optStr payload.iss)
  else if strFalsy payload.sub then
    Except.error "Invalid subject: sub must be a non-empty string"
  else if payload.auth_time = none || optGt payload.auth_time now then
    Except.error "Invalid auth_time"
  else
    Except.ok ()

/-! ### `parseCacheControlMaxAge` (`jwtUtils.ts`) -/

def takeDigits : List Char → List Char
  | [] => []
  | c :: rest => if c.isDigit then c :: takeDigits rest else []

def digitsToNat (l : List Char) : Nat :=
  l.foldl (fun acc c => acc * 10 + (c.toNat - 48)) 0

def listStartsWith : List Char → List Char → Bool
  | [], _ => true
  | _ :: _, [] => false
  | p :: ps, c :: cs => p = c && listStartsWith ps cs

/-- Scan for the first match of the regex `max-age=(\d+)`. -/
def findMaxAge : List Char → Option Nat
  | [] => none
  | c :: rest =>
    if listStartsWith ['m','a','x','-','a','g','e','='] (c :: rest) then
      let ds := takeDigits ((c :: rest).drop 8)
      if ds = [] then findMaxAge rest else some (digitsToNat ds)
    else findMaxAge rest

/-- `parseCacheControlMaxAge` from `jwtUtils.ts`: `null` and `""` headers are
falsy, otherwise the first `max-age=<digits>` directive is extracted. -/
def parseCacheControlMaxAge (headerValue : Option String) : Option Nat :=
  match headerValue with
  | none => none
  | some h => if h = "" then none else findMaxAge h.data

/-! ### The document store (`schema.ts`): users, sessions, publicKeyCache

Each table is a list of `(id, row)` pairs in creation order; `_id` values
are drawn from a single `nextId` counter so that ids are fresh across the
store.  A query `order("desc").first()` on an index therefore reads the
last matching element of the list. -/

structure UserRow where
  firebaseUid : String
  email : Option String
  emailVerified : Option Bool
  displayName : Option String
  photoURL : Option String
  phoneNumber : Option String
  providerId : Option String
  isAnonymous : Option Bool
  lastSignInTime : Option Int
deriving Repr, DecidableEq

structure SessionRow where
  userId : Nat
  firebaseUid : String
  expiresAt : Int
  createdAt : Int
  lastActiveAt : Int
deriving Repr, DecidableEq

structure CacheRow where
  keys : String
  fetchedAt : Int
  expiresAt : Int
deriving Repr, DecidableEq

structure DB where
  users : List (Nat × UserRow)
  sessions : List (Nat × SessionRow)
  publicKeyCache : List (Nat × CacheRow)
  nextId : Nat
deriving Repr, DecidableEq

/-- Convex `.unique()` over the rows matching a predicate: `none` when no
row matches, the single match otherwise, and an error (a thrown
`Error`) when more than one row matches. -/
def uniqueFind {α : Type} (l : List (Nat × α)) (pred : α → Bool) :
    Except String (Option (Nat × α)) :=
  match l.filter (fun p => pred p.2) with
  | [] => Except.ok none
  | [x] => Except.ok (some x)
  | _ => Except.error "unique() query returned more than one result"

/-- Delete the rows with the given ids, one `ctx.db.delete` at a time. -/
def deleteIds {α : Type} (t : List (Nat × α)) (ids : List Nat) :
    List (Nat × α) :=
  ids.foldl (fun acc i => acc.filter (fun p => p.1 ≠ i)) t

/-! ### Component functions from `lib.ts` -/

/-- `getUserByFirebaseUid`: indexed unique lookup. -/
def getUserByFirebaseUid (db : DB) (uid : String) :
    Except String (Option (Nat × UserRow)) :=
  uniqueFind db.users (fun u => u.firebaseUid = uid)

/-- `_getUserById`: `ctx.db.get` by document id. -/
def _getUserById (db : DB) (userId : Nat) : Option UserRow :=
  (db.users.find? (fun p => p.1 = userId)).map (fun p => p.2)

/-- `getSession`: newest session for the uid (`order("desc").first()`),
`null` when it is expired. -/
def getSession (db : DB) (uid : String) (nowMs : Int) : Option SessionRow :=
  match (db.sessions.filter (fun p => p.2.firebaseUid = uid)).getLast? with
  | none => none
  | some (_, s) => if s.expiresAt < nowMs then none else some s

/-- `deleteUser`: unique user lookup by uid, delete every session whose
`userId` equals the user's id, then delete the user. -/
def deleteUser (db : DB) (uid : String) : Except String DB :=
  match uniqueFind db.users (fun u => u.firebaseUid = uid) with
  | Except.error e => Except.error e
  | Except.ok none => Except.ok db
  | Except.ok (some (i, _)) =>
    let collected := db.sessions.filter (fun p => p.2.userId = i)
    Except.ok { db with
      sessions := deleteIds db.sessions (collected.map (fun p => p.1)),
      users := db.users.filter (fun p => p.1 ≠ i) }

/-- Arguments of `_upsertUser` (`undefined` modelled as `none`). -/
structure UpsertArgs where
  firebaseUid : String
  email : Option String
  emailVerified : Option Bool
  displayName : Option String
  photoURL : Option String
  phoneNumber : Option String
  providerId : Option String
  isAnonymous : Option Bool
  lastSignInTime : Option Int
deriving Repr, DecidableEq

/-- The `ctx.db.patch` applied by `_upsertUser` to an existing user: every
argument that is not `undefined` overwrites the stored field, every other
field (and `firebaseUid`, which is never in the update set) is kept. -/
def applyUserUpdates (args : UpsertArgs) (u : UserRow) : UserRow :=
  { firebaseUid := u.firebaseUid
    email := match args.email with | some v => some v | none => u.email
    emailVerified := match args.emailVerified with
      | some v => some v | none => u.emailVerified
    displayName := match args.displayName with
      | some v => some v | none => u.displayName
    photoURL := match args.photoURL with | some v => some v | none => u.photoURL
    phoneNumber := match args.phoneNumber with
      | some v => some v | none => u.phoneNumber
    providerId := match args.providerId with
      | some v => some v | none => u.providerId
    isAnonymous := match args.isAnonymous with
      | some v => some v | none => u.isAnonymous
    lastSignInTime := match args.lastSignInTime with
      | some v => some v | none => u.lastSignInTime }

/-- `_upsertUser`: patch the unique existing row (a patch with an empty
update set is the identity, so it is applied unconditionally here) or
insert a new row; returns the row id. -/
def _upsertUser (db : DB) (args : UpsertArgs) : Except String (DB × Nat) :=
  match uniqueFind db.users (fun u => u.firebaseUid = args.firebaseUid) with
  | Except.error e => Except.error e
  | Except.ok (some (i, _)) =>
    Except.ok ({ db with
      users := db.users.map
        (fun p => if p.1 = i then (p.1, applyUserUpdates args p.2) else p) }, i)
  | Except.ok none =>
    Except.ok ({ db with
      users := db.users ++ [(db.nextId,
        { firebaseUid := args.firebaseUid, email := args.email,
          emailVerified := args.emailVerified, displayName := args.displayName,
          photoURL := args.photoURL, phoneNumber := args.phoneNumber,
          providerId := args.providerId, isAnonymous := args.isAnonymous,
          lastSignInTime := args.lastSignInTime })],
      nextId := db.nextId + 1 }, db.nextId)

/-- `_createSession`: prune the expired sessions of the same uid, then
insert the new session row; returns the new row id. -/
def _createSession (db : DB) (userId : Nat) (uid : String)
    (expiresAt createdAt lastActiveAt nowMs : Int) : DB × Nat :=
  let existing := db.sessions.filter (fun p => p.2.firebaseUid = uid)
  let expired := (existing.filter (fun p => p.2.expiresAt < nowMs)).map
    (fun p => p.1)
  ({ db with
    sessions := deleteIds db.sessions expired ++
      [(db.nextId, ⟨userId, uid, expiresAt, createdAt, lastActiveAt⟩)],
    nextId := db.nextId + 1 }, db.nextId)

/-- `_getCachedPublicKeys`: `order("desc").first()` over the cache table. -/
def _getCachedPublicKeys (db : DB) : Option CacheRow :=
  (db.publicKeyCache.getLast?).map (fun p => p.2)

/-- `_setCachedPublicKeys`: delete every existing cache row, then insert
the new one. -/
def _setCachedPublicKeys (db : DB) (keys : String) (fetchedAt expiresAt : Int) :
    DB :=
  let remaining := deleteIds db.publicKeyCache
    (db.publicKeyCache.map (fun p => p.1))
  { db with
    publicKeyCache := remaining ++ [(db.nextId, ⟨keys, fetchedAt, expiresAt⟩)],
    nextId := db.nextId + 1 }

/-! ### The verification orchestrator (`verifyToken` from `lib.ts`) -/

/-- A JSON Web Key as far as the orchestrator inspects it: its `kid` plus
an opaque remainder consumed by the crypto primitives. -/
structure Jwk where
  kid : Option String
  body : String
deriving Repr, DecidableEq

/-- Platform primitives and external effects of one `verifyToken` request:
JSON parsing, UTF-8 decoding, the outcome of the single `fetch` of the
JWK endpoint, `crypto.subtle` key import and signature verification, and
the two clocks (`Date.now()` in ms and its floor in whole seconds). -/
structure VerifyEnv where
  jsonHeader : String → Option JwtHeader
  jsonPayload : String → Option FirebaseTokenPayload
  utf8 : List Nat → String
  fetchOk : Bool
  fetchStatus : Nat
  fetchBody : String
  fetchCacheControl : Option String
  jwkParse : String → Option (List Jwk)
  importOk : Jwk → Bool
  sigValid : String → List Nat → Jwk → Bool
  nowMs : Int
  nowSec : Int

/-- The fetch-and-store arm of step 3 of `verifyToken`: fetch the JWK
endpoint, fail on a non-ok response, compute the TTL from `Cache-Control`
(default 3600 seconds) and replace the cache row. -/
def fetchAndStore (env : VerifyEnv) (db : DB) : DB × Except String String :=
  if !env.fetchOk then
    (db, Except.error ("Failed to fetch Google public keys: " ++
      toString env.fetchStatus))
  else
    let maxAge : Int := ((parseCacheControlMaxAge env.fetchCacheControl).getD 3600 : Nat)
    let db2 := _setCachedPublicKeys db env.fetchBody env.nowMs
      (env.nowMs + maxAge * 1000)
    (db2, Except.ok env.fetchBody)

/-- Step 3 of `verifyToken`: use the cached keys when present and not
expired, otherwise fetch and replace the cache row. -/
def resolveKeys (env : VerifyEnv) (db : DB) : DB × Except String String :=
  match _getCachedPublicKeys db with
  | none => fetchAndStore env db
  | some c =>
    if c.expiresAt < env.nowMs then fetchAndStore env db
    else (db, Except.ok c.keys)

/-- The `_upsertUser` argument record built by step 7 of `verifyToken`
from the validated payload (note the JS truthiness uses: the anonymous
flag is `true` or `undefined`, never `false`, and a falsy `auth_time`
yields an `undefined` `lastSignInTime`). -/
def upsertArgsOfPayload (p : FirebaseTokenPayload) : UpsertArgs :=
  { firebaseUid := optStr p.sub
    email := p.email
    emailVerified := p.email_verified
    displayName := p.name
    photoURL := p.picture
    phoneNumber := p.phone_number
    providerId := p.firebase.bind (fun f => f.sign_in_provider)
    isAnonymous :=
      if p.firebase.bind (fun f => f.sign_in_provider) = some "anonymous"
      then some true else none
    lastSignInTime := match p.auth_time with
      | none => none
      | some t => if t = 0 then none else some (t * 1000) }

/-- `verifyToken` from `lib.ts`: parse, check `alg == "RS256"`, resolve
keys through the cache, select the key by `kid`, import it and check the
RS256 signature, validate the claims, then upsert the user, create a
session and return the stored user row. -/
def verifyToken (env : VerifyEnv) (db : DB) (idToken firebaseProjectId : String) :
    DB × Except String (Option UserRow) :=
  match parseJwt env.jsonHeader env.jsonPayload env.utf8 idToken with
  | Except.error e => (db, Except.error e)
  | Except.ok parsed =>
    if parsed.header.alg ≠ some "RS256" then
      (db, Except.error ("Unsupported algorithm: " ++ optStr parsed.header.alg))
    else
      match resolveKeys env db with
      | (db1, Except.error e) => (db1, Except.error e)
      | (db1, Except.ok keysStr) =>
        match env.jwkParse keysStr with
        | none => (db1, Except.error "Unexpected token in JSON")
        | some jwks =>
          match jwks.find? (fun k => k.kid == parsed.header.kid) with
          | none => (db1, Except.error ("No matching public key found for kid: " ++
              optStr parsed.header.kid))
          | some jwk =>
            if !env.importOk jwk then
              (db1, Except.error "DataError")
            else if !env.sigValid parsed.signedContent parsed.signature jwk then
              (db1, Except.error "Invalid token signature")
            else
              match validateClaims parsed.payload firebaseProjectId env.nowSec with
              | Except.error e => (db1, Except.error e)
              | Except.ok () =>
                match _upsertUser db1 (upsertArgsOfPayload parsed.payload) with
                | Except.error e => (db1, Except.error e)
                | Except.ok (db2, userId) =>
                  let db3 := (_createSession db2 userId (optStr parsed.payload.sub)
                    ((parsed.payload.exp.getD 0) * 1000) env.nowMs env.nowMs
                    env.nowMs).1
                  (db3, Except.ok (_getUserById db3 userId))

/-! ### The consistency invariant of the store

Every state the component reaches satisfies it: `_upsertUser` is the only
user writer and never duplicates a `firebaseUid`, and `_createSession` is
only called (from `verifyToken`) with the id returned by `_upsertUser`
for the same uid, so a session's `userId` always denotes the user row
carrying the session's `firebaseUid`. -/
def DB.wf (db : DB) : Prop :=
  db.users.Pairwise (fun a b => a.2.firebaseUid ≠ b.2.firebaseUid) ∧
  ∀ p ∈ db.sessions, ∃ q ∈ db.users, q.1 = p.2.userId ∧
    q.2.firebaseUid = p.2.firebaseUid

/-! ### Concrete fixtures used by the witness theorems -/

def basePayload : FirebaseTokenPayload :=
  { iss := some "https://securetoken.google.com/my-project"
    aud := some "my-project"
    auth_time := some 940
    sub := some "user-123"
    iat := some 940
    exp := some 2000
    email := none
    email_verified := none
    name := none
    picture := none
    phone_number := none
    firebase := none }

def payloadIatZero : FirebaseTokenPayload := { basePayload with iat := some 0 }

def payloadIatZeroWrongAud : FirebaseTokenPayload :=
  { basePayload with iat := some 0, aud := some "wrong-project" }

def envBase : VerifyEnv :=
  { jsonHeader := fun _ => some { alg := some "RS256", kid := some "kid1" }
    jsonPayload := fun _ => some basePayload
    utf8 := fun _ => ""
    fetchOk := true
    fetchStatus := 200
    fetchBody := "bodyA"
    fetchCacheControl := some "public, max-age=3600"
    jwkParse := fun _ => some []
    importOk := fun _ => false
    sigValid := fun _ _ _ => false
    nowMs := 1000000
    nowSec := 1000 }

def emptyDB : DB := ⟨[], [], [], 0⟩

def userA : UserRow :=
  { firebaseUid := "u1", email := some "a@example.com", emailVerified := some true
    displayName := none, photoURL := none, phoneNumber := none
    providerId := none, isAnonymous := some true, lastSignInTime := none }

def db7 : DB :=
  ⟨[(0, userA)],
   [(1, ⟨0, "u1", 5000, 10, 10⟩), (2, ⟨0, "u1", 9999999, 20, 20⟩)],
   [], 3⟩

def db9 : DB := ⟨[(0, userA)], [], [], 1⟩

def args9 : UpsertArgs :=
  { firebaseUid := "u1", email := some "new@example.com", emailVerified := none
    displayName := none, photoURL := none, phoneNumber := none
    providerId := some "password", isAnonymous := none, lastSignInTime := none }

def db10 : DB :=
  ⟨[(0, userA)],
   [(1, ⟨0, "u1", 2000000, 1, 1⟩), (2, ⟨0, "u1", 500, 2, 2⟩)],
   [], 3⟩

def dbFresh : DB := ⟨[], [], [(0, ⟨"cachedKeys", 5, 2000000⟩)], 1⟩

def dbStale : DB := ⟨[], [], [(0, ⟨"oldKeys", 5, 7⟩)], 1⟩

/-! ## Shared lemmas -/

theorem mem_deleteIds {α : Type} (ids : List Nat) (t : List (Nat × α))
    (x : Nat × α) : x ∈ deleteIds t ids ↔ x ∈ t ∧ x.1 ∉ ids := by
  induction ids generalizing t with
  | nil => simp [deleteIds]
  | cons i rest ih =>
    show x ∈ deleteIds (t.filter (fun p => p.1 ≠ i)) rest ↔ _
    rw [ih]
    simp only [List.mem_filter, List.mem_cons, decide_eq_true_eq]
    constructor
    · rintro ⟨⟨hx, hne⟩, hnin⟩
      exact ⟨hx, by rintro (h | h) <;> [exact hne h; exact hnin h]⟩
    · rintro ⟨hx, hnin⟩
      exact ⟨⟨hx, fun h => hnin (Or.inl h)⟩, fun h => hnin (Or.inr h)⟩

theorem deleteIds_map_fst {α : Type} (t : List (Nat × α)) :
    deleteIds t (t.map (fun p => p.1)) = [] := by
  rw [List.eq_nil_iff_forall_not_mem]
  intro x hx
  rw [mem_deleteIds] at hx
  exact hx.2 (List.mem_map_of_mem _ hx.1)

theorem setCachedPublicKeys_spec (db : DB) (k : String) (f e : Int) :
    (_setCachedPublicKeys db k f e).publicKeyCache = [(db.nextId, ⟨k, f, e⟩)] ∧
    (_setCachedPublicKeys db k f e).users = db.users ∧
    (_setCachedPublicKeys db k f e).sessions = db.sessions ∧
    (_setCachedPublicKeys db k f e).nextId = db.nextId + 1 := by
  unfold _setCachedPublicKeys
  refine ⟨?_, rfl, rfl, rfl⟩
  rw [deleteIds_map_fst]
  rfl

/-! ## C5: the public-key cache is single-slot -/

/-- C5: after any call to `_setCachedPublicKeys` the `publicKeyCache` table
holds exactly one row, carrying the arguments of that call; in particular
setting the cache twice leaves exactly one row reflecting the second
write. -/
theorem setCachedPublicKeys_single_slot (db : DB) (k1 k2 : String)
    (f1 e1 f2 e2 : Int) :
    (_setCachedPublicKeys db k1 f1 e1).publicKeyCache =
      [(db.nextId, ⟨k1, f1, e1⟩)] ∧
    (_setCachedPublicKeys (_setCachedPublicKeys db k1 f1 e1) k2 f2 e2).publicKeyCache =
      [(db.nextId + 1, ⟨k2, f2, e2⟩)] := by
  refine ⟨(setCachedPublicKeys_spec db k1 f1 e1).1, ?_⟩
  rw [(setCachedPublicKeys_spec _ k2 f2 e2).1,
    (setCachedPublicKeys_spec db k1 f1 e1).2.2.2]

/-! ## C4: fetch-vs-reuse policy of the key cache -/

/-- C4: during verification the cached keys are returned unchanged (and the
result does not depend on any fetch outcome, i.e. no network call is made)
exactly when a cache row exists with `expiresAt >= now`; when the row is
absent or has `expiresAt < now`, a successful fetch stores a single row
with `expiresAt = now + ttl * 1000`, `ttl` being the parsed `max-age` of
the `Cache-Control` header with default 3600, and a failed fetch errors
without touching the store. -/
theorem resolveKeys_cache_policy (env : VerifyEnv) (db : DB) :
    (∀ c, _getCachedPublicKeys db = some c → env.nowMs ≤ c.expiresAt →
      resolveKeys env db = (db, Except.ok c.keys)) ∧
    ((_getCachedPublicKeys db = none ∨
        ∃ c, _getCachedPublicKeys db = some c ∧ c.expiresAt < env.nowMs) →
      env.fetchOk = true →
      (resolveKeys env db).2 = Except.ok env.fetchBody ∧
      ((resolveKeys env db).1).publicKeyCache = [(db.nextId,
        ⟨env.fetchBody, env.nowMs,
         env.nowMs +
           (((parseCacheControlMaxAge env.fetchCacheControl).getD 3600 : Nat) : Int) *
             1000⟩)]) ∧
    ((_getCachedPublicKeys db = none ∨
        ∃ c, _getCachedPublicKeys db = some c ∧ c.expiresAt < env.nowMs) →
      env.fetchOk = false →
      resolveKeys env db = (db, Except.error
        ("Failed to fetch Google public keys: " ++ toString env.fetchStatus))) := by
  have hfetch : env.fetchOk = true →
      fetchAndStore env db =
        (_setCachedPublicKeys db env.fetchBody env.nowMs
          (env.nowMs +
            (((parseCacheControlMaxAge env.fetchCacheControl).getD 3600 : Nat) : Int) *
              1000),
         Except.ok env.fetchBody) := by
    intro hok
    unfold fetchAndStore
    rw [hok]
    rfl
  refine ⟨?_, ?_, ?_⟩
  · intro c hc hfreshexp
    unfold resolveKeys
    rw [hc]
    show (if c.expiresAt < env.nowMs then fetchAndStore env db
      else (db, Except.ok c.keys)) = _
    rw [if_neg (by omega)]
  · intro hstale hok
    have hrk : resolveKeys env db = fetchAndStore env db := by
      unfold resolveKeys
      rcases hstale with h | ⟨c, hc, hlt⟩
      · rw [h]
      · rw [hc]
        show (if c.expiresAt < env.nowMs then fetchAndStore env db
          else (db, Except.ok c.keys)) = _
        rw [if_pos hlt]
    rw [hrk, hfetch hok]
    exact ⟨rfl, (setCachedPublicKeys_spec db env.fetchBody env.nowMs _).1⟩
  · intro hstale hbad
    have hrk : resolveKeys env db = fetchAndStore env db := by
      unfold resolveKeys
      rcases hstale with h | ⟨c, hc, hlt⟩
      · rw [h]
      · rw [hc]
        show (if c.expiresAt < env.nowMs then fetchAndStore env db
          else (db, Except.ok c.keys)) = _
        rw [if_pos hlt]
    rw [hrk]
    unfold fetchAndStore
    rw [hbad]
    rfl

/-- Witness for C4: a fresh cache row is returned as-is, a stale row is
replaced by a fetched one with `expiresAt = now + 3600000`, and a failed
fetch on a stale cache errors. -/
theorem resolveKeys_cache_policy_witness :
    resolveKeys envBase dbFresh = (dbFresh, Except.ok "cachedKeys") ∧
    ((resolveKeys envBase dbStale).2 = Except.ok "bodyA" ∧
      ((resolveKeys envBase dbStale).1).publicKeyCache =
        [(1, ⟨"bodyA", 1000000, 4600000⟩)]) ∧
    resolveKeys { envBase with fetchOk := false } dbStale =
      (dbStale, Except.error "Failed to fetch Google public keys: 200") := by
  refine ⟨?_, ?_, ?_⟩
  · exact (resolveKeys_cache_policy envBase dbFresh).1 ⟨"cachedKeys", 5, 2000000⟩
      (by rfl) (by decide)
  · have h := (resolveKeys_cache_policy envBase dbStale).2.1
      (Or.inr ⟨⟨"oldKeys", 5, 7⟩, by rfl, by decide⟩) rfl
    exact ⟨h.1, by rw [h.2]; rfl⟩
  · exact (resolveKeys_cache_policy { envBase with fetchOk := false } dbStale).2.2
      (Or.inr ⟨⟨"oldKeys", 5, 7⟩, by rfl, by decide⟩) rfl

/-! ## C1: no user/session write on any verification failure -/

theorem resolveKeys_frame (env : VerifyEnv) (db : DB) :
    ((resolveKeys env db).1).users = db.users ∧
    ((resolveKeys env db).1).sessions = db.sessions := by
  unfold resolveKeys fetchAndStore
  rcases _getCachedPublicKeys db with _ | c
  · dsimp only
    split
    · exact ⟨rfl, rfl⟩
    · exact ⟨(setCachedPublicKeys_spec db _ _ _).2.1,
        (setCachedPublicKeys_spec db _ _ _).2.2.1⟩
  · dsimp only
    split
    · split
      · exact ⟨rfl, rfl⟩
      · exact ⟨(setCachedPublicKeys_spec db _ _ _).2.1,
          (setCachedPublicKeys_spec db _ _ _).2.2.1⟩
    · exact ⟨rfl, rfl⟩

/-- C1: whenever `verifyToken` fails — in parsing, the RS256 check, key
resolution, key lookup by kid, signature verification, claims validation
or the final store step — the `users` and `sessions` tables of the
resulting state equal those of the initial state (only the key cache may
have been replaced). -/
theorem verifyToken_error_frame (env : VerifyEnv) (db dbOut : DB)
    (idToken pid e : String)
    (h : verifyToken env db idToken pid = (dbOut, Except.error e)) :
    dbOut.users = db.users ∧ dbOut.sessions = db.sessions := by
  have hfr := resolveKeys_frame env db
  unfold verifyToken at h
  cases hp : parseJwt env.jsonHeader env.jsonPayload env.utf8 idToken with
  | error e1 =>
    rw [hp] at h
    have h1 := congrArg Prod.fst h
    simp only at h1
    rw [← h1]
    exact ⟨rfl, rfl⟩
  | ok parsed =>
    rw [hp] at h
    dsimp only at h
    by_cases halg : parsed.header.alg ≠ some "RS256"
    · rw [if_pos halg] at h
      have h1 := congrArg Prod.fst h
      simp only at h1
      rw [← h1]
      exact ⟨rfl, rfl⟩
    · rw [if_neg halg] at h
      rcases hr : resolveKeys env db with ⟨db1, r⟩
      rw [hr] at h hfr
      simp only at hfr
      cases r with
      | error e2 =>
        have h1 := congrArg Prod.fst h
        simp only at h1
        rw [← h1]
        exact hfr
      | ok keysStr =>
        dsimp only at h
        cases hj : env.jwkParse keysStr with
        | none =>
          rw [hj] at h
          have h1 := congrArg Prod.fst h
          simp only at h1
          rw [← h1]
          exact hfr
        | some jwks =>
          rw [hj] at h
          dsimp only at h
          cases hfind : jwks.find? (fun k => k.kid == parsed.header.kid) with
          | none =>
            rw [hfind] at h
            have h1 := congrArg Prod.fst h
            simp only at h1
            rw [← h1]
            exact hfr
          | some jwk =>
            rw [hfind] at h
            dsimp only at h
            cases himp : env.importOk jwk with
            | false =>
              rw [himp] at h
              simp only [Bool.not_false, if_true] at h
              have h1 := congrArg Prod.fst h
              simp only at h1
              rw [← h1]
              exact hfr
            | true =>
              rw [himp] at h
              simp only [Bool.not_true, Bool.false_eq_true, if_false] at h
              cases hsig : env.sigValid parsed.signedContent parsed.signature jwk with
              | false =>
                rw [hsig] at h
                simp only [Bool.not_false, if_true] at h
                have h1 := congrArg Prod.fst h
                simp only at h1
                rw [← h1]
                exact hfr
              | true =>
                rw [hsig] at h
                simp only [Bool.not_true, Bool.false_eq_true, if_false] at h
                cases hv : validateClaims parsed.payload pid env.nowSec with
                | error e3 =>
                  rw [hv] at h
                  have h1 := congrArg Prod.fst h
                  simp only at h1
                  rw [← h1]
                  exact hfr
                | ok u =>
                  rw [hv] at h
                  dsimp only at h
                  cases hu : _upsertUser db1 (upsertArgsOfPayload parsed.payload) with
                  | error e4 =>
                    rw [hu] at h
                    have h1 := congrArg Prod.fst h
                    simp only at h1
                    rw [← h1]
                    exact hfr
                  | ok pair =>
                    rw [hu] at h
                    have h2 := congrArg Prod.snd h
                    simp only at h2
                    exact absurd h2 (by simp)

/-- Witness for C1: a request that parses and passes the RS256 check but
finds no key matching the kid fails, leaving `users` and `sessions` of the
(initially empty) store unchanged even though the key cache was filled. -/
theorem verifyToken_error_frame_witness :
    (⟨[], [], [(0, ⟨"bodyA", 1000000, 4600000⟩)], 1⟩ : DB).users = emptyDB.users ∧
    (⟨[], [], [(0, ⟨"bodyA", 1000000, 4600000⟩)], 1⟩ : DB).sessions = emptyDB.sessions :=
  verifyToken_error_frame envBase emptyDB
    ⟨[], [], [(0, ⟨"bodyA", 1000000, 4600000⟩)], 1⟩
    "AA.BB.CC" "my-project" "No matching public key found for kid: kid1" (by rfl)

/-! ## C6: `signedContent` is the literal first-two-segments substring -/

theorem splitOnDot_ne_nil (s : List Char) : splitOnDot s ≠ [] := by
  cases s with
  | nil => simp [splitOnDot]
  | cons c rest =>
    unfold splitOnDot
    cases splitOnDot rest with
    | nil => simp
    | cons h t =>
      show (if c = '.' then [] :: h :: t else (c :: h) :: t) ≠ []
      split <;> simp

theorem joinDots_splitOnDot (s : List Char) : joinDots (splitOnDot s) = s := by
  induction s with
  | nil => rfl
  | cons c rest ih =>
    unfold splitOnDot
    cases hs : splitOnDot rest with
    | nil => exact absurd hs (splitOnDot_ne_nil rest)
    | cons hd t =>
      rw [hs] at ih
      show joinDots (if c = '.' then [] :: hd :: t else (c :: hd) :: t) = c :: rest
      by_cases hc : c = '.'
      · subst hc
        rw [if_pos rfl]
        show '.' :: joinDots (hd :: t) = '.' :: rest
        rw [ih]
      · rw [if_neg hc]
        cases t with
        | nil =>
          show c :: hd = c :: rest
          have ih2 : hd = rest := ih
          rw [ih2]
        | cons t0 ts =>
          show (c :: hd) ++ '.' :: joinDots (t0 :: ts) = c :: rest
          rw [← ih]
          rfl

/-- C6: whenever `parseJwt` succeeds, the input token splits into three
dot-separated segments and `signedContent` is, byte for byte, the literal
`segment1.segment2` prefix of the token — for every choice of the JSON and
UTF-8 platform primitives, so it is never rebuilt from the decoded
objects. -/
theorem parseJwt_literal_signedContent (hp : String → Option JwtHeader)
    (pp : String → Option FirebaseTokenPayload) (u8 : List Nat → String)
    (token : String) (r : ParsedJwt)
    (h : parseJwt hp pp u8 token = Except.ok r) :
    ∃ p0 p1 p2 : List Char, token.data = p0 ++ '.' :: (p1 ++ '.' :: p2) ∧
      r.signedContent.data = p0 ++ '.' :: p1 := by
  unfold parseJwt at h
  split at h
  · rename_i headerB64 payloadB64 signatureB64 heq
    split at h
    · simp at h
    · split at h
      · simp at h
      · split at h
        · simp at h
        · split at h
          · simp at h
          · rw [Except.ok.injEq] at h
            subst h
            refine ⟨headerB64, payloadB64, signatureB64, ?_, rfl⟩
            have hj := joinDots_splitOnDot token.data
            rw [heq] at hj
            rw [← hj]
            rfl
  · simp at h

/-- Witness for C6: a concrete parse of `"AA.BB.CC"` yields a decomposition
whose signed content is the literal `"AA.BB"` prefix. -/
theorem parseJwt_literal_signedContent_witness :
    ∃ p0 p1 p2 : List Char,
      ("AA.BB.CC" : String).data = p0 ++ '.' :: (p1 ++ '.' :: p2) ∧
      ("AA.BB" : String).data = p0 ++ '.' :: p1 :=
  parseJwt_literal_signedContent envBase.jsonHeader envBase.jsonPayload
    envBase.utf8 "AA.BB.CC"
    ⟨⟨some "RS256", some "kid1"⟩, basePayload, "AA.BB", [8]⟩ (by rfl)

/-! ## C2 and C3: claims validation

The code checks presence with JS truthiness, so `iat = 0` (and `exp = 0`)
are treated as absent; the bridging lemmas below relate the claim-level
conditions to the boolean flags of `validateClaims`. -/

theorem expFlag_true (o : Option Int) (now : Int)
    (h : o = none ∨ ∃ x, o = some x ∧ x ≤ now) :
    (numFalsy o || optLe o now) = true := by
  rcases h with h | ⟨x, hx, hle⟩
  · simp [h, numFalsy]
  · simp [hx, numFalsy, optLe, hle]

theorem expFlag_false (o : Option Int) (now : Int) (hnow : 0 ≤ now)
    (h : ¬ (o = none ∨ ∃ x, o = some x ∧ x ≤ now)) :
    (numFalsy o || optLe o now) = false := by
  push_neg at h
  obtain ⟨h1, h2⟩ := h
  cases o with
  | none => exact absurd rfl h1
  | some x =>
    have hx := h2 x rfl
    simp [numFalsy, optLe]
    omega

theorem iatFlag_true (o : Option Int) (now : Int)
    (h : o = none ∨ o = some 0 ∨ ∃ x, o = some x ∧ now < x) :
    (numFalsy o || optGt o now) = true := by
  rcases h with h | h | ⟨x, hx, hlt⟩
  · simp [h, numFalsy]
  · simp [h, numFalsy]
  · simp [hx, numFalsy, optGt, hlt]

theorem iatFlag_false (o : Option Int) (now : Int)
    (h : ¬ (o = none ∨ o = some 0 ∨ ∃ x, o = some x ∧ now < x)) :
    (numFalsy o || optGt o now) = false := by
  push_neg at h
  obtain ⟨h1, h2, h3⟩ := h
  cases o with
  | none => exact absurd rfl h1
  | some x =>
    have hx := h3 x rfl
    have hx0 : x ≠ 0 := fun he => h2 (by rw [he])
    simp [numFalsy, optGt]
    omega

theorem subFlag_true (o : Option String) (h : o = none ∨ o = some "") :
    strFalsy o = true := by
  rcases h with h | h <;> simp [h, strFalsy]

theorem subFlag_false (o : Option String) (h : ¬ (o = none ∨ o = some "")) :
    strFalsy o = false := by
  push_neg at h
  cases o with
  | none => exact absurd rfl h.1
  | some s =>
    simp [strFalsy]
    exact fun he => h.2 (by rw [he])

theorem atFlag_true (o : Option Int) (now : Int)
    (h : o = none ∨ ∃ x, o = some x ∧ now < x) :
    (decide (o = none) || optGt o now) = true := by
  rcases h with h | ⟨x, hx, hlt⟩
  · simp [h]
  · simp [hx, optGt, hlt]

/-- C2 counterexample: a payload meeting every condition of the claim with
`iat = 0` and `now = 1000 > 0` is rejected by `validateClaims` (the JS
truthiness check `!payload.iat` treats `0` as absent). -/
theorem validateClaims_iat_zero_cex :
    payloadIatZero.exp = some 2000 ∧ payloadIatZero.iat = some 0 ∧
    payloadIatZero.auth_time = some 940 ∧
    (0 : Int) ≤ 0 ∧ (0 : Int) < 1000 ∧ (1000 : Int) < 2000 ∧
    (940 : Int) ≤ 1000 ∧
    payloadIatZero.aud = some "my-project" ∧
    payloadIatZero.iss = some ("https://securetoken.google.com/" ++ "my-project") ∧
    payloadIatZero.sub = some "user-123" ∧ "user-123" ≠ "" ∧
    validateClaims payloadIatZero "my-project" 1000 =
      Except.error "Token issued in the future" ∧
    (validateClaims payloadIatZero "my-project" 1000).isOk = false :=
  ⟨rfl, rfl, rfl, by decide, by decide, by decide, by decide, rfl, rfl, rfl,
    by decide, rfl, rfl⟩

/-- C2 (amended): `validateClaims` succeeds on every payload with present
integer `exp`, `iat`, `auth_time` such that `0 < iat < now < exp` and
`auth_time <= now`, matching `aud`/`iss` and a non-empty `sub`; the
amendment restricts the claim's `iat` range to exclude `iat = 0`, which
the code's truthiness presence check rejects. -/
theorem validateClaims_accepts (p : FirebaseTokenPayload) (pid : String)
    (now e i t : Int) (s : String)
    (hexp : p.exp = some e) (hiat : p.iat = some i) (hat : p.auth_time = some t)
    (hi0 : 0 < i) (hin : i < now) (hne : now < e) (htn : t ≤ now)
    (haud : p.aud = some pid)
    (hiss : p.iss = some ("https://securetoken.google.com/" ++ pid))
    (hsub : p.sub = some s) (hs : s ≠ "") :
    validateClaims p pid now = Except.ok () := by
  unfold validateClaims
  rw [hexp, hiat, hat, haud, hiss, hsub]
  rw [if_neg (by simp [numFalsy, optLe]; omega)]
  rw [if_neg (by simp [numFalsy, optGt]; omega)]
  rw [if_neg (by simp)]
  rw [if_neg (by simp)]
  rw [if_neg (by simp [strFalsy, hs])]
  rw [if_neg (by simp [optGt]; omega)]

/-- Witness for C2 (amended): a concrete valid payload is accepted. -/
theorem validateClaims_accepts_witness :
    validateClaims basePayload "my-project" 1000 = Except.ok () :=
  validateClaims_accepts basePayload "my-project" 1000 2000 940 940 "user-123"
    rfl rfl rfl (by decide) (by decide) (by decide) (by decide) rfl rfl rfl
    (by decide)

/-- C3 counterexample: for a payload whose first violated rule in the
claim's order is the audience rule (its `iat = 0` is a present integer not
greater than `now`), the code nevertheless fails with the issued-in-future
error, because the truthiness check fires on `iat = 0` first. -/
theorem validateClaims_order_cex :
    (¬ (payloadIatZeroWrongAud.exp = none ∨
        ∃ x, payloadIatZeroWrongAud.exp = some x ∧ x ≤ (1000 : Int))) ∧
    (¬ (payloadIatZeroWrongAud.iat = none ∨
        ∃ x, payloadIatZeroWrongAud.iat = some x ∧ (1000 : Int) < x)) ∧
    payloadIatZeroWrongAud.aud ≠ some "my-project" ∧
    validateClaims payloadIatZeroWrongAud "my-project" 1000 =
      Except.error "Token issued in the future" ∧
    validateClaims payloadIatZeroWrongAud "my-project" 1000 ≠
      Except.error "Invalid audience: expected my-project, got wrong-project" := by
  refine ⟨?_, ?_, by decide, rfl, ?_⟩
  · simp only [payloadIatZeroWrongAud, basePayload]
    rintro (h | ⟨x, hx, hle⟩)
    · simp at h
    · rw [Option.some.injEq] at hx
      omega
  · simp only [payloadIatZeroWrongAud, basePayload]
    rintro (h | ⟨x, hx, hlt⟩)
    · simp at h
    · rw [Option.some.injEq] at hx
      omega
  · intro hcontr
    have h0 : validateClaims payloadIatZeroWrongAud "my-project" 1000 =
        Except.error "Token issued in the future" := rfl
    have h2 := h0.symm.trans hcontr
    injection h2 with h3
    exact absurd h3 (by decide)

/-- C3 (amended): `validateClaims` fails with the first violated rule in
the order expiry, issued-in-future, audience, issuer, subject, auth-time,
with strict comparisons against `now` in whole seconds; the amendment is
that the issued-in-future rule fires for `iat` absent, `iat = 0` (JS
truthiness) or `iat > now`. -/
theorem validateClaims_first_violated (p : FirebaseTokenPayload) (pid : String)
    (now : Int) (hnow : 0 ≤ now) :
    ((p.exp = none ∨ ∃ x, p.exp = some x ∧ x ≤ now) →
      validateClaims p pid now = Except.error "Token has expired") ∧
    (¬ (p.exp = none ∨ ∃ x, p.exp = some x ∧ x ≤ now) →
      (p.iat = none ∨ p.iat = some 0 ∨ ∃ x, p.iat = some x ∧ now < x) →
      validateClaims p pid now = Except.error "Token issued in the future") ∧
    (¬ (p.exp = none ∨ ∃ x, p.exp = some x ∧ x ≤ now) →
      ¬ (p.iat = none ∨ p.iat = some 0 ∨ ∃ x, p.iat = some x ∧ now < x) →
      p.aud ≠ some pid →
      validateClaims p pid now = Except.error
        ("Invalid audience: expected " ++ pid ++ ", got " ++ optStr p.aud)) ∧
    (¬ (p.exp = none ∨ ∃ x, p.exp = some x ∧ x ≤ now) →
      ¬ (p.iat = none ∨ p.iat = some 0 ∨ ∃ x, p.iat = some x ∧ now < x) →
      p.aud = some pid →
      p.iss ≠ some ("https://securetoken.google.com/" ++ pid) →
      validateClaims p pid now = Except.error
        ("Invalid issuer: expected https://securetoken.google.com/" ++ pid ++
          ", got " ++ optStr p.iss)) ∧
    (¬ (p.exp = none ∨ ∃ x, p.exp = some x ∧ x ≤ now) →
      ¬ (p.iat = none ∨ p.iat = some 0 ∨ ∃ x, p.iat = some x ∧ now < x) →
      p.aud = some pid →
      p.iss = some ("https://securetoken.google.com/" ++ pid) →
      (p.sub = none ∨ p.sub = some "") →
      validateClaims p pid now =
        Except.error "Invalid subject: sub must be a non-empty string") ∧
    (¬ (p.exp = none ∨ ∃ x, p.exp = some x ∧ x ≤ now) →
      ¬ (p.iat = none ∨ p.iat = some 0 ∨ ∃ x, p.iat = some x ∧ now < x) →
      p.aud = some pid →
      p.iss = some ("https://securetoken.google.com/" ++ pid) →
      ¬ (p.sub = none ∨ p.sub = some "") →
      (p.auth_time = none ∨ ∃ x, p.auth_time = some x ∧ now < x) →
      validateClaims p pid now = Except.error "Invalid auth_time") := by
  refine ⟨?_, ?_, ?_, ?_, ?_, ?_⟩
  · intro h1
    unfold validateClaims
    rw [if_pos (expFlag_true p.exp now h1)]
  · intro h1 h2
    unfold validateClaims
    rw [if_neg (by rw [expFlag_false p.exp now hnow h1]; simp),
      if_pos (iatFlag_true p.iat now h2)]
  · intro h1 h2 h3
    unfold validateClaims
    rw [if_neg (by rw [expFlag_false p.exp now hnow h1]; simp),
      if_neg (by rw [iatFlag_false p.iat now h2]; simp),
      if_pos h3]
  · intro h1 h2 h3 h4
    unfold validateClaims
    rw [if_neg (by rw [expFlag_false p.exp now hnow h1]; simp),
      if_neg (by rw [iatFlag_false p.iat now h2]; simp),
      if_neg (not_not_intro h3), if_pos h4]
  · intro h1 h2 h3 h4 h5
    unfold validateClaims
    rw [if_neg (by rw [expFlag_false p.exp now hnow h1]; simp),
      if_neg (by rw [iatFlag_false p.iat now h2]; simp),
      if_neg (not_not_intro h3), if_neg (not_not_intro h4),
      if_pos (subFlag_true p.sub h5)]
  · intro h1 h2 h3 h4 h5 h6
    unfold validateClaims
    rw [if_neg (by rw [expFlag_false p.exp now hnow h1]; simp),
      if_neg (by rw [iatFlag_false p.iat now h2]; simp),
      if_neg (not_not_intro h3), if_neg (not_not_intro h4),
      if_neg (by rw [subFlag_false p.sub h5]; simp),
      if_pos (atFlag_true p.auth_time now h6)]

/-- Witness for C3 (amended): the expiry rule fires first on an expired
payload, and the (amended) issued-in-future rule fires on `iat = 0`. -/
theorem validateClaims_first_violated_witness :
    validateClaims { basePayload with exp := some 900 } "my-project" 1000 =
      Except.error "Token has expired" ∧
    validateClaims payloadIatZero "my-project" 1000 =
      Except.error "Token issued in the future" := by
  constructor
  · exact (validateClaims_first_violated { basePayload with exp := some 900 }
      "my-project" 1000 (by decide)).1 (Or.inr ⟨900, rfl, by decide⟩)
  · refine (validateClaims_first_violated payloadIatZero
      "my-project" 1000 (by decide)).2.1 ?_ (Or.inr (Or.inl rfl))
    rintro (h | ⟨x, hx, hle⟩)
    · simp [payloadIatZero, basePayload] at h
    · have hx2 : (2000 : Int) = x := by
        have : payloadIatZero.exp = some 2000 := rfl
        rw [this, Option.some.injEq] at hx
        exact hx
      omega

/-! ## C9: `_upsertUser` on an existing uid is id-stable and frame-preserving -/

/-- C9: when a user row with the argument's `firebaseUid` exists,
`_upsertUser` returns that row's id and only patches that row;
`firebaseUid` is never modified, every field whose argument is
`undefined` is left unchanged, and in particular an `undefined`
`isAnonymous` (any non-anonymous sign-in provider) never resets a stored
`isAnonymous = true`. -/
theorem upsertUser_existing_frame (db : DB) (args : UpsertArgs) (i : Nat)
    (u : UserRow)
    (h : db.users.filter (fun p => p.2.firebaseUid = args.firebaseUid) = [(i, u)]) :
    _upsertUser db args = Except.ok
      (⟨db.users.map (fun p => if p.1 = i then (p.1, applyUserUpdates args p.2) else p),
        db.sessions, db.publicKeyCache, db.nextId⟩, i) ∧
    (applyUserUpdates args u).firebaseUid = u.firebaseUid ∧
    (args.email = none → (applyUserUpdates args u).email = u.email) ∧
    (args.emailVerified = none →
      (applyUserUpdates args u).emailVerified = u.emailVerified) ∧
    (args.displayName = none →
      (applyUserUpdates args u).displayName = u.displayName) ∧
    (args.photoURL = none → (applyUserUpdates args u).photoURL = u.photoURL) ∧
    (args.phoneNumber = none →
      (applyUserUpdates args u).phoneNumber = u.phoneNumber) ∧
    (args.providerId = none →
      (applyUserUpdates args u).providerId = u.providerId) ∧
    (args.isAnonymous = none →
      (applyUserUpdates args u).isAnonymous = u.isAnonymous) ∧
    (args.lastSignInTime = none →
      (applyUserUpdates args u).lastSignInTime = u.lastSignInTime) ∧
    (args.isAnonymous = none → u.isAnonymous = some true →
      (applyUserUpdates args u).isAnonymous = some true) := by
  refine ⟨?_, rfl, ?_, ?_, ?_, ?_, ?_, ?_, ?_, ?_, ?_⟩
  · simp only [_upsertUser, uniqueFind, h]
  · intro ha
    simp [applyUserUpdates, ha]
  · intro ha
    simp [applyUserUpdates, ha]
  · intro ha
    simp [applyUserUpdates, ha]
  · intro ha
    simp [applyUserUpdates, ha]
  · intro ha
    simp [applyUserUpdates, ha]
  · intro ha
    simp [applyUserUpdates, ha]
  · intro ha
    simp [applyUserUpdates, ha]
  · intro ha
    simp [applyUserUpdates, ha]
  · intro ha hu
    simp [applyUserUpdates, ha, hu]

/-- Witness for C9: upserting over an existing anonymous user with
`isAnonymous = undefined` keeps the flag `true` and returns the stored id. -/
theorem upsertUser_existing_frame_witness :
    _upsertUser db9 args9 =
      Except.ok (⟨[(0, applyUserUpdates args9 userA)], [], [], 1⟩, 0) ∧
    (applyUserUpdates args9 userA).isAnonymous = some true := by
  have h := upsertUser_existing_frame db9 args9 0 userA (by decide)
  refine ⟨?_, h.2.2.2.2.2.2.2.2.2.2 rfl rfl⟩
  rw [h.1]
  rfl

/-! ## C10: `getSession` inspects only the newest session -/

/-- C10: `getSession` never returns an expired session, and its result is
determined by the most recently created session row for the uid alone:
that row when `expiresAt >= now`, `null` otherwise — even when an older
unexpired session exists. -/
theorem getSession_newest_only (db : DB) (uid : String) (nowMs : Int) :
    (∀ s, getSession db uid nowMs = some s → nowMs ≤ s.expiresAt) ∧
    (∀ i s, (db.sessions.filter (fun p => p.2.firebaseUid = uid)).getLast? =
        some (i, s) →
      getSession db uid nowMs = if s.expiresAt < nowMs then none else some s) := by
  constructor
  · intro s hs
    unfold getSession at hs
    cases hlast : (db.sessions.filter (fun p => p.2.firebaseUid = uid)).getLast? with
    | none => rw [hlast] at hs; exact absurd hs (by simp)
    | some p =>
      obtain ⟨j, srow⟩ := p
      rw [hlast] at hs
      dsimp only at hs
      split at hs
      · exact absurd hs (by simp)
      · rw [Option.some.injEq] at hs
        subst hs
        omega
  · intro i s hlast
    unfold getSession
    rw [hlast]

/-- Witness for C10: with an older live session and a newer expired one for
the same uid, `getSession` returns `null`, although the older session
satisfies `expiresAt >= now`. -/
theorem getSession_newest_only_witness :
    getSession db10 "u1" 1000000 = none ∧
    (1000000 : Int) ≤ 2000000 ∧
    ((1 : Nat), (⟨0, "u1", 2000000, 1, 1⟩ : SessionRow)) ∈ db10.sessions := by
  refine ⟨?_, by decide, by decide⟩
  have h := (getSession_newest_only db10 "u1" 1000000).2 2
    ⟨0, "u1", 500, 2, 2⟩ (by decide)
  rw [h]
  decide

/-! ## C7: `deleteUser` removes the user and all of its sessions -/

theorem pairwise_filter_single (l : List (Nat × UserRow)) (uid : String)
    (hp : l.Pairwise (fun a b => a.2.firebaseUid ≠ b.2.firebaseUid)) :
    l.filter (fun p => p.2.firebaseUid = uid) = [] ∨
    ∃ x, l.filter (fun p => p.2.firebaseUid = uid) = [x] ∧ x ∈ l ∧
      x.2.firebaseUid = uid := by
  cases hf : l.filter (fun p => p.2.firebaseUid = uid) with
  | nil => exact Or.inl rfl
  | cons x t =>
    right
    have hfilt := hp.filter (fun p => decide (p.2.firebaseUid = uid))
    rw [hf] at hfilt
    have hx : x ∈ l.filter (fun p => p.2.firebaseUid = uid) := by
      rw [hf]
      exact List.mem_cons_self x t
    rw [List.mem_filter] at hx
    have hxuid : x.2.firebaseUid = uid := by simpa using hx.2
    cases t with
    | nil => exact ⟨x, rfl, hx.1, hxuid⟩
    | cons y t2 =>
      exfalso
      have hy : y ∈ l.filter (fun p => p.2.firebaseUid = uid) := by
        rw [hf]
        simp
      rw [List.mem_filter] at hy
      have hyuid : y.2.firebaseUid = uid := by simpa using hy.2
      have hxy := (List.pairwise_cons.mp hfilt).1 y (List.mem_cons_self y t2)
      exact hxy (hxuid.trans hyuid.symm)

/-- C7: on every consistent store, `deleteUser firebaseUid` leaves no user
row with that uid and no session row whose `firebaseUid` field matches it,
so the subsequent user and session lookups both return absent. -/
theorem deleteUser_cascades (db : DB) (uid : String) (hwf : DB.wf db) :
    ∃ db2, deleteUser db uid = Except.ok db2 ∧
      (∀ p ∈ db2.users, p.2.firebaseUid ≠ uid) ∧
      (∀ p ∈ db2.sessions, p.2.firebaseUid ≠ uid) ∧
      getUserByFirebaseUid db2 uid = Except.ok none ∧
      (∀ nowMs, getSession db2 uid nowMs = none) := by
  obtain ⟨hpw, hlink⟩ := hwf
  rcases pairwise_filter_single db.users uid hpw with hf | ⟨⟨i, u⟩, hf, hmem, huid⟩
  · have husers : ∀ p ∈ db.users, p.2.firebaseUid ≠ uid := by
      intro p hp2 heq
      have hpf : p ∈ db.users.filter (fun p => p.2.firebaseUid = uid) :=
        List.mem_filter.mpr ⟨hp2, by simp [heq]⟩
      rw [hf] at hpf
      exact absurd hpf (List.not_mem_nil p)
    have hsess : ∀ p ∈ db.sessions, p.2.firebaseUid ≠ uid := by
      intro p hp2 heq
      obtain ⟨q, hq, hqid, hquid⟩ := hlink p hp2
      exact husers q hq (hquid.trans heq)
    have hsf : db.sessions.filter (fun p => p.2.firebaseUid = uid) = [] :=
      List.filter_eq_nil_iff.mpr (fun p hp2 => by simp [hsess p hp2])
    refine ⟨db, ?_, husers, hsess, ?_, ?_⟩
    · simp only [deleteUser, uniqueFind, hf]
    · simp only [getUserByFirebaseUid, uniqueFind, hf]
    · intro nowMs
      unfold getSession
      rw [hsf]
      rfl
  · have hne : ∀ p ∈ db.users, p.2.firebaseUid = uid → p = (i, u) := by
      intro p hp2 heq
      have hpf : p ∈ db.users.filter (fun p => p.2.firebaseUid = uid) :=
        List.mem_filter.mpr ⟨hp2, by simp [heq]⟩
      rw [hf] at hpf
      simpa using hpf
    have husers : ∀ p ∈ db.users.filter (fun p => p.1 ≠ i),
        p.2.firebaseUid ≠ uid := by
      intro p hp2 heq
      rw [List.mem_filter] at hp2
      have hpi : p = (i, u) := hne p hp2.1 heq
      have : p.1 ≠ i := by simpa using hp2.2
      exact this (by rw [hpi])
    have hsess : ∀ p ∈ deleteIds db.sessions
        ((db.sessions.filter (fun p => p.2.userId = i)).map (fun p => p.1)),
        p.2.firebaseUid ≠ uid := by
      intro p hp2 heq
      rw [mem_deleteIds] at hp2
      obtain ⟨q, hq, hqid, hquid⟩ := hlink p hp2.1
      have hqi : q = (i, u) := hne q hq (hquid.trans heq)
      have hpcol : p ∈ db.sessions.filter (fun p => p.2.userId = i) :=
        List.mem_filter.mpr ⟨hp2.1, by simp [← hqid, hqi]⟩
      exact hp2.2 (List.mem_map_of_mem (fun p => p.1) hpcol)
    refine ⟨⟨db.users.filter (fun p => p.1 ≠ i),
      deleteIds db.sessions
        ((db.sessions.filter (fun p => p.2.userId = i)).map (fun p => p.1)),
      db.publicKeyCache, db.nextId⟩, ?_, husers, hsess, ?_, ?_⟩
    · simp only [deleteUser, uniqueFind, hf]
    · have hfe : (db.users.filter (fun p => p.1 ≠ i)).filter
          (fun p => p.2.firebaseUid = uid) = [] :=
        List.filter_eq_nil_iff.mpr (fun p hp2 => by simp [husers p hp2])
      simp only [getUserByFirebaseUid, uniqueFind]
      rw [hfe]
    · intro nowMs
      have hfe : (deleteIds db.sessions
          ((db.sessions.filter (fun p => p.2.userId = i)).map (fun p => p.1))).filter
          (fun p => p.2.firebaseUid = uid) = [] :=
        List.filter_eq_nil_iff.mpr (fun p hp2 => by simp [hsess p hp2])
      unfold getSession
      rw [hfe]
      rfl

/-- Witness for C7: deleting a concrete user with two sessions removes the
user row and both session rows, and both lookups subsequently miss. -/
theorem deleteUser_cascades_witness :
    ∃ db2, deleteUser db7 "u1" = Except.ok db2 ∧
      (∀ p ∈ db2.users, p.2.firebaseUid ≠ "u1") ∧
      (∀ p ∈ db2.sessions, p.2.firebaseUid ≠ "u1") ∧
      getUserByFirebaseUid db2 "u1" = Except.ok none ∧
      (∀ nowMs, getSession db2 "u1" nowMs = none) :=
  deleteUser_cascades db7 "u1" ⟨by simp [db7], by decide⟩

/-! ## C8: base64url decode is a left inverse of the unpadded encoding -/

theorem chunk3Rec (P : List Nat → Prop) (h0 : P []) (h1 : ∀ a, P [a])
    (h2 : ∀ a b, P [a, b])
    (h3 : ∀ a b c rest, P rest → P (a :: b :: c :: rest)) :
    ∀ l, P l
  | [] => h0
  | [a] => h1 a
  | [a, b] => h2 a b
  | a :: b :: c :: rest => h3 a b c rest (chunk3Rec P h0 h1 h2 h3 rest)

theorem sextets_lt : ∀ (l : List Nat), (∀ b ∈ l, b < 256) →
    ∀ s ∈ bytesToSextets l, s < 64 := by
  intro l
  induction l using chunk3Rec with
  | h0 =>
    intro _ s hs
    simp [bytesToSextets] at hs
  | h1 a =>
    intro hl s hs
    have ha := hl a (by simp)
    simp [bytesToSextets] at hs
    rcases hs with h | h <;> omega
  | h2 a b =>
    intro hl s hs
    have ha := hl a (by simp)
    have hb := hl b (by simp)
    simp [bytesToSextets] at hs
    rcases hs with h | h | h <;> omega
  | h3 a b c rest ih =>
    intro hl s hs
    have ha := hl a (by simp)
    have hb := hl b (by simp)
    have hc := hl c (by simp)
    simp only [bytesToSextets, List.mem_cons] at hs
    rcases hs with h | h | h | h | h
    · omega
    · omega
    · omega
    · omega
    · exact ih (fun x hx => hl x (by simp [hx])) s h

theorem sextetsToBytes_bytesToSextets : ∀ (l : List Nat), (∀ b ∈ l, b < 256) →
    sextetsToBytes (bytesToSextets l) = l := by
  intro l
  induction l using chunk3Rec with
  | h0 => intro _; rfl
  | h1 a =>
    intro hl
    have ha := hl a (by simp)
    simp only [bytesToSextets, sextetsToBytes, List.cons.injEq, and_true]
    omega
  | h2 a b =>
    intro hl
    have ha := hl a (by simp)
    have hb := hl b (by simp)
    simp only [bytesToSextets, sextetsToBytes, List.cons.injEq, and_true]
    refine ⟨by omega, by omega⟩
  | h3 a b c rest ih =>
    intro hl
    have ha := hl a (by simp)
    have hb := hl b (by simp)
    have hc := hl c (by simp)
    simp only [bytesToSextets, sextetsToBytes, List.cons.injEq]
    exact ⟨by omega, by omega, by omega, ih (fun x hx => hl x (by simp [hx]))⟩

theorem bytesToSextets_length_mod : ∀ (l : List Nat),
    (bytesToSextets l).length % 4 ≠ 1 := by
  intro l
  induction l using chunk3Rec with
  | h0 => simp [bytesToSextets]
  | h1 a => simp [bytesToSextets]
  | h2 a b => simp [bytesToSextets]
  | h3 a b c rest ih =>
    simp only [bytesToSextets, List.length_cons]
    omega

theorem toUrlChar_std : ∀ s < 64,
    (if toUrlChar s = '-' then '+' else if toUrlChar s = '_' then '/'
      else toUrlChar s) = b64Alphabet.getD s 'A' := by decide

theorem b64Index_getD : ∀ s < 64,
    b64Index (b64Alphabet.getD s 'A') = some s := by decide

theorem alphabet_not_ws : ∀ s < 64,
    isB64Ws (b64Alphabet.getD s 'A') = false := by decide

theorem alphabet_ne_eq : ∀ s < 64, b64Alphabet.getD s 'A' ≠ '=' := by decide

theorem map_std_toUrl : ∀ (l : List Nat), (∀ s ∈ l, s < 64) →
    (l.map toUrlChar).map
      (fun c => if c = '-' then '+' else if c = '_' then '/' else c) =
      l.map (fun s => b64Alphabet.getD s 'A') := by
  intro l
  induction l with
  | nil => intro _; rfl
  | cons s rest ih =>
    intro h
    simp only [List.map_cons, List.cons.injEq]
    exact ⟨toUrlChar_std s (h s (by simp)), ih (fun x hx => h x (by simp [hx]))⟩

theorem mapSextets_map : ∀ (l : List Nat), (∀ s ∈ l, s < 64) →
    mapSextets (l.map (fun s => b64Alphabet.getD s 'A')) = some l := by
  intro l
  induction l with
  | nil => intro _; rfl
  | cons s rest ih =>
    intro h
    simp only [List.map_cons, mapSextets]
    rw [b64Index_getD s (h s (by simp)), ih (fun x hx => h x (by simp [hx]))]

theorem filter_not_ws : ∀ (l : List Char), (∀ c ∈ l, isB64Ws c = false) →
    l.filter (fun c => !isB64Ws c) = l := by
  intro l h
  rw [List.filter_eq_self]
  intro a ha
  rw [h a ha]
  rfl

theorem mem_of_getLast?_eq {l : List Char} {a : Char}
    (h : l.getLast? = some a) : a ∈ l := by
  obtain ⟨hne, heq⟩ :=
    List.mem_getLast?_eq_getLast (show a ∈ l.getLast? from h)
  rw [heq]
  exact List.getLast_mem hne

theorem dropTrailingEq_no_eq (l : List Char) (h : ∀ c ∈ l, c ≠ '=') :
    dropTrailingEq l = l := by
  unfold dropTrailingEq
  rw [if_neg]
  intro hlast
  exact h '=' (mem_of_getLast?_eq hlast) rfl

theorem dropTrailingEq_append_one (l : List Char) (h : ∀ c ∈ l, c ≠ '=') :
    dropTrailingEq (l ++ ['=']) = l := by
  unfold dropTrailingEq
  rw [List.getLast?_concat, List.dropLast_concat]
  rw [if_pos rfl, if_neg]
  intro hlast
  exact h '=' (mem_of_getLast?_eq hlast) rfl

theorem dropTrailingEq_append_two (l : List Char) :
    dropTrailingEq (l ++ ['=', '=']) = l := by
  have h2 : l ++ ['=', '='] = (l ++ ['=']) ++ ['='] := by simp
  rw [h2]
  unfold dropTrailingEq
  rw [List.getLast?_concat, List.dropLast_concat, List.getLast?_concat,
    List.dropLast_concat]
  simp

theorem atob_encode (sx : List Nat) (h64 : ∀ s ∈ sx, s < 64) (k : Nat)
    (hk0 : (sx.length + k) % 4 = 0) (hk2 : k ≤ 2) :
    atob (sx.map (fun s => b64Alphabet.getD s 'A') ++ List.replicate k '=') =
      Except.ok (sextetsToBytes sx) := by
  have hch : ∀ c ∈ sx.map (fun s => b64Alphabet.getD s 'A') ++
      List.replicate k '=', isB64Ws c = false := by
    intro c hc
    rw [List.mem_append] at hc
    rcases hc with hc | hc
    · rw [List.mem_map] at hc
      obtain ⟨s, hsmem, rfl⟩ := hc
      exact alphabet_not_ws s (h64 s hsmem)
    · rw [List.eq_of_mem_replicate hc]
      rfl
  have hne : ∀ c ∈ sx.map (fun s => b64Alphabet.getD s 'A'), c ≠ '=' := by
    intro c hc
    rw [List.mem_map] at hc
    obtain ⟨s, hsmem, rfl⟩ := hc
    exact alphabet_ne_eq s (h64 s hsmem)
  have hdrop : dropTrailingEq (sx.map (fun s => b64Alphabet.getD s 'A') ++
      List.replicate k '=') = sx.map (fun s => b64Alphabet.getD s 'A') := by
    interval_cases k
    · rw [List.replicate_zero, List.append_nil]
      exact dropTrailingEq_no_eq _ hne
    · rw [show List.replicate 1 '=' = ['='] from rfl]
      exact dropTrailingEq_append_one _ hne
    · rw [show List.replicate 2 '=' = ['=', '='] from rfl]
      exact dropTrailingEq_append_two _
  have hlen : (sx.map (fun s => b64Alphabet.getD s 'A') ++
      List.replicate k '=').length % 4 = 0 := by
    rw [List.length_append, List.length_map, List.length_replicate]
    omega
  simp only [atob]
  rw [filter_not_ws _ hch, if_pos hlen, hdrop]
  rw [if_neg (by rw [List.length_map]; omega)]
  rw [mapSextets_map sx h64]

/-- C8: decoding the unpadded base64url encoding of any byte sequence with
`base64urlDecode` succeeds (no error despite the absent `=` padding) and
returns the original bytes. -/
theorem base64urlDecode_encode (bytes : List Nat) (hb : ∀ b ∈ bytes, b < 256) :
    base64urlDecode (String.mk (base64urlEncode bytes)) = Except.ok bytes := by
  have h64 := sextets_lt bytes hb
  have hmod := bytesToSextets_length_mod bytes
  simp only [base64urlDecode, base64urlEncode]
  rw [map_std_toUrl _ h64, List.length_map]
  rw [atob_encode (bytesToSextets bytes) h64
    ((4 - (bytesToSextets bytes).length % 4) % 4) (by omega) (by omega)]
  rw [sextetsToBytes_bytesToSextets bytes hb]

/-- Witness for C8: the bytes `[72, 101, 255]` survive the round trip. -/
theorem base64urlDecode_encode_witness :
    (∀ b ∈ [72, 101, 255], b < 256) ∧
    base64urlDecode (String.mk (base64urlEncode [72, 101, 255])) =
      Except.ok [72, 101, 255] :=
  ⟨by decide, base64urlDecode_encode [72, 101, 255] (by decide)⟩

end CFA
